import Mathlib

/-!
A verification development for the chess rule engine of this repository
(`chessgpt/rules.py` and `chessgpt/board.py`).

The Python code is shallowly embedded as executable Lean definitions:

* Pieces are the single characters the source uses (`'P'`/`'p'`, ...);
  a board cell is `Option Char` and a board is the source's flat list.
* Python `int` is `Int` (square indices produced by `square_index` can be
  negative, and the engine's arithmetic uses `Int` `/` and `%`, the
  Euclidean division of the core library, which agrees with Python `//`
  and `%` for the positive divisors used here).
* Python `set` values (the castling rights) are modelled as `List Char`
  with membership semantics; `set.discard` becomes a filter that removes
  every occurrence.
* Code that can raise (`list.index`, `int(...)`, tuple unpacking,
  list indexing out of range, `None.upper()`) returns `Option`, with
  `none` standing for the raised exception.  Python list indexing wraps
  negative indices in `[-len, -1]` and raises otherwise; `pyGet`/`pySet`
  mirror this exactly.
* In-place mutation (`apply_move` updates its `state` argument and
  returns `None`) is embedded by explicit state passing: the returned
  `State` is the value the caller's `state` variable holds after the
  call.
-/

/- == Constant tables, `rules.py` lines 6-20 == -/

def FILES : List Char := ['a', 'b', 'c', 'd', 'e', 'f', 'g', 'h']

def KNIGHT_OFFSETS : List (Int × Int) :=
  [(-2, -1), (-2, 1), (-1, -2), (-1, 2), (1, -2), (1, 2), (2, -1), (2, 1)]

def BISHOP_OFFSETS : List (Int × Int) := [(-1, -1), (-1, 1), (1, -1), (1, 1)]

def ROOK_OFFSETS : List (Int × Int) := [(-1, 0), (1, 0), (0, -1), (0, 1)]

def KING_OFFSETS : List (Int × Int) :=
  [(-1, -1), (-1, 0), (-1, 1), (0, -1), (0, 1), (1, -1), (1, 0), (1, 1)]

/- == Square parsing, `rules.py` lines 23-27 == -/

/-- Python `int(ch)` on a single character: only a decimal digit succeeds. -/
def charDigitVal (c : Char) : Option Int :=
  if c.isDigit then some ((c.toNat : Int) - 48) else none

/-- Source `square_index` (`rules.py` 23-27): `FILES.index(s[0])` raises on an
unknown file letter and `int(s[1])` raises on a non-digit, but an
out-of-range rank digit is accepted and yields an out-of-board index. -/
def square_index (s : List Char) : Option Int := do
  let c0 ← s.get? 0
  let c1 ← s.get? 1
  let file ← (FILES.indexOf? c0).map (Int.ofNat)
  let n ← charDigitVal c1
  pure ((8 - n) * 8 + file)

/- == Moves, `rules.py` lines 34-47 == -/

structure Move where
  from_sq : Int
  to_sq : Int
  promotion : Option Char := none
deriving DecidableEq, Repr

/-- Source `Move.from_uci` (`rules.py` 40-43): the optional fifth character is
taken verbatim as the promotion letter, with no validation. -/
def Move.from_uci (uci : List Char) : Option Move := do
  let promo : Option Char := if uci.length > 4 then uci.get? 4 else none
  let f ← square_index (uci.take 2)
  let t ← square_index ((uci.drop 2).take 2)
  pure ⟨f, t, promo⟩

/- == State, `rules.py` lines 50-92 == -/

/-- The `State` dataclass (`rules.py` 50-58).  The source also carries a
`history : List[State]` field that is written `[]` at construction,
copied verbatim by `clone` and never read by any engine operation; being
unobservable, it is omitted from the embedding. -/
structure State where
  board : List (Option Char)
  to_move : Char
  castling_rights : List Char
  en_passant : Option Int
  halfmove_clock : Int
  fullmove_number : Int
deriving DecidableEq, Repr

/-- Python `str.split(sep)` for a single separator: splits at every
occurrence, keeping empty pieces. -/
def splitChar (sep : Char) : List Char → List (List Char)
  | [] => [[]]
  | c :: rest =>
    if c = sep then [] :: splitChar sep rest
    else
      match splitChar sep rest with
      | h :: t => (c :: h) :: t
      | [] => [[c]]

/-- Python `int(str)`: an optional sign followed by at least one digit. -/
def pyInt (s : List Char) : Option Int :=
  let digitsVal : List Char → Option Int := fun ds =>
    if ds ≠ [] ∧ ds.all Char.isDigit then
      some (ds.foldl (fun a c => a * 10 + ((c.toNat : Int) - 48)) 0)
    else none
  match s with
  | '-' :: rest => (digitsVal rest).map (fun n => -n)
  | '+' :: rest => digitsVal rest
  | _ => digitsVal s

/-- Source `State.from_fen` (`rules.py` 60-81).  `fen.split()` becomes a split
on spaces discarding empty pieces; unpacking into six parts raises
otherwise.  Board characters are not validated, the castling field is
kept as the set of its characters, and `square_index` is applied to a
non-`'-'` en-passant field. -/
def State.from_fen (fen : List Char) : Option State :=
  match (splitChar ' ' fen).filter (· ≠ []) with
  | [board_part, active, castling, ep, halfmove, fullmove] => do
    let board : List (Option Char) :=
      (splitChar '/' board_part).flatMap fun row =>
        row.flatMap fun ch =>
          if ch.isDigit then List.replicate (ch.toNat - 48) none else [some ch]
    let rights : List Char := if castling ≠ ['-'] then castling else []
    let ep_sq : Option Int ←
      if ep = ['-'] then pure none
      else do
        let v ← square_index ep
        pure (some v)
    let hm ← pyInt halfmove
    let fm ← pyInt fullmove
    pure { board := board,
           to_move := if active = ['w'] then 'w' else 'b',
           castling_rights := rights,
           en_passant := ep_sq,
           halfmove_clock := hm,
           fullmove_number := fm }
  | _ => none

/-- Source `State.clone` (`rules.py` 83-92): a field-by-field value copy, which
under value semantics is the identity. -/
def State.clone (s : State) : State :=
  { board := s.board,
    to_move := s.to_move,
    castling_rights := s.castling_rights,
    en_passant := s.en_passant,
    halfmove_clock := s.halfmove_clock,
    fullmove_number := s.fullmove_number }

/- == Colors and board access, `rules.py` lines 95-108 == -/

def color_of (piece : Char) : Char := if piece.isUpper then 'w' else 'b'

def opposite (color : Char) : Char := if color = 'w' then 'b' else 'w'

/-- Source `piece_at` (`rules.py` 103-104), i.e. `state.board[row * 8 + col]`.
Every call site in the source first checks `0 <= row < 8` and
`0 <= col < 8`, so on the 64-cell boards of the data model this agrees
with Python indexing. -/
def piece_at (s : State) (row col : Int) : Option Char :=
  s.board.getD (row * 8 + col).toNat none

/-- Python list read `l[i]`: wraps indices in `[-len, -1]`, raises
(`none`) outside `[-len, len)`. -/
def pyGet (l : List (Option Char)) (i : Int) : Option (Option Char) :=
  if 0 ≤ i ∧ i < (l.length : Int) then some (l.getD i.toNat none)
  else if -(l.length : Int) ≤ i ∧ i < 0 then
    some (l.getD (l.length - (-i).toNat) none)
  else none

/-- Python list write `l[i] = v`, with the same index rule as `pyGet`. -/
def pySet (l : List (Option Char)) (i : Int) (v : Option Char) :
    Option (List (Option Char)) :=
  if 0 ≤ i ∧ i < (l.length : Int) then some (l.set i.toNat v)
  else if -(l.length : Int) ≤ i ∧ i < 0 then
    some (l.set (l.length - (-i).toNat) v)
  else none

/- == Attack detection, `rules.py` lines 111-157 == -/

/-- One sliding attack ray of `is_square_attacked` (`rules.py` 129-149).
The `while` loop runs at most 8 steps before leaving the board, so a
fuel of 8 is exact. -/
def rayAttack (board : List (Option Char)) (attacker : Char)
    (kinds : List Char) (dr dc : Int) : Int → Int → Nat → Bool
  | _, _, 0 => false
  | r, c, fuel + 1 =>
    if 0 ≤ r ∧ r < 8 ∧ 0 ≤ c ∧ c < 8 then
      match board.getD (r * 8 + c).toNat none with
      | some piece => color_of piece = attacker ∧ piece.toLower ∈ kinds
      | none => rayAttack board attacker kinds dr dc (r + dr) (c + dc) fuel
    else false

/-- Source `is_square_attacked` (`rules.py` 111-157). -/
def is_square_attacked (s : State) (row col : Int) (attacker : Char) : Bool :=
  let pawnDirs : List (Int × Int) :=
    if attacker = 'w' then [(-1, -1), (-1, 1)] else [(1, -1), (1, 1)]
  let pawn : Char := if attacker = 'w' then 'P' else 'p'
  (pawnDirs.any fun d =>
    let r := row + d.1
    let c := col + d.2
    decide (0 ≤ r ∧ r < 8 ∧ 0 ≤ c ∧ c < 8) &&
      (s.board.getD (r * 8 + c).toNat none == some pawn)) ||
  (KNIGHT_OFFSETS.any fun d =>
    let r := row + d.1
    let c := col + d.2
    decide (0 ≤ r ∧ r < 8 ∧ 0 ≤ c ∧ c < 8) &&
      (match s.board.getD (r * 8 + c).toNat none with
       | some piece => piece.toLower == 'n' && color_of piece == attacker
       | none => false)) ||
  (BISHOP_OFFSETS.any fun d =>
    rayAttack s.board attacker ['b', 'q'] d.1 d.2 (row + d.1) (col + d.2) 8) ||
  (ROOK_OFFSETS.any fun d =>
    rayAttack s.board attacker ['r', 'q'] d.1 d.2 (row + d.1) (col + d.2) 8) ||
  (KING_OFFSETS.any fun d =>
    let r := row + d.1
    let c := col + d.2
    decide (0 ≤ r ∧ r < 8 ∧ 0 ≤ c ∧ c < 8) &&
      (match s.board.getD (r * 8 + c).toNat none with
       | some piece => piece.toLower == 'k' && color_of piece == attacker
       | none => false))

/-- Source `king_position` (`rules.py` 160-165): first occurrence scan. -/
def king_position (s : State) (color : Char) : Option (Int × Int) :=
  let target : Char := if color = 'w' then 'K' else 'k'
  (s.board.findIdx? (· = some target)).map fun idx =>
    ((idx : Int) / 8, (idx : Int) % 8)

/-- Source `in_check` (`rules.py` 168-172).  `if not pos: return False` — a
`(row, col)` tuple is always truthy, so the guard fires exactly when no
king was found. -/
def in_check (s : State) (color : Char) : Bool :=
  match king_position s color with
  | none => false
  | some (r, c) => is_square_attacked s r c (opposite color)

/- == Pseudo-legal generation, `rules.py` lines 179-284 == -/

/-- The body of the pawn block of `generate_pseudo_legal_moves`
(`rules.py` 190-214), parameterised by the local variables `dir`,
`start` and `promo_row` computed at lines 187-189. -/
def pawnMovesCore (s : State) (idx : Nat) (row col : Int) (color : Char)
    (dir start promoRow : Int) : List Move :=
  let r := row + dir
  let fwd : List Move :=
    if 0 ≤ r ∧ r < 8 ∧ piece_at s r col = none then
      (if r = promoRow then
        ['q', 'r', 'b', 'n'].map fun pk => ⟨idx, r * 8 + col, some pk⟩
       else [⟨idx, r * 8 + col, none⟩]) ++
      (if row = start ∧ piece_at s (r + dir) col = none then
        [⟨idx, (r + dir) * 8 + col, none⟩]
       else [])
    else []
  let caps : List Move :=
    ([-1, 1] : List Int).flatMap fun dc =>
      let c := col + dc
      if 0 ≤ r ∧ r < 8 ∧ 0 ≤ c ∧ c < 8 then
        match piece_at s r c with
        | some target =>
          if color_of target ≠ color then
            (if r = promoRow then
              ['q', 'r', 'b', 'n'].map fun pk => ⟨idx, r * 8 + c, some pk⟩
             else [⟨idx, r * 8 + c, none⟩])
          else if s.en_passant = some (r * 8 + c) then
            [⟨idx, r * 8 + c, none⟩]
          else []
        | none =>
          if s.en_passant = some (r * 8 + c) then
            [⟨idx, r * 8 + c, none⟩]
          else []
      else []
  fwd ++ caps

/-- The pawn block of `generate_pseudo_legal_moves`
(`rules.py` 186-214): compute `dir`, `start` and `promo_row` from the
color of the side to move, then emit the pawn moves. -/
def pawnMovesAt (s : State) (idx : Nat) (row col : Int) (color : Char) :
    List Move :=
  pawnMovesCore s idx row col color (if color = 'w' then -1 else 1)
    (if color = 'w' then 6 else 1) (if color = 'w' then 0 else 7)

/-- One sliding-move ray (`rules.py` 222-257), fuel as in `rayAttack`. -/
def slideRay (s : State) (idx : Nat) (color : Char) (dr dc : Int) :
    Int → Int → Nat → List Move
  | _, _, 0 => []
  | r, c, fuel + 1 =>
    if 0 ≤ r ∧ r < 8 ∧ 0 ≤ c ∧ c < 8 then
      match piece_at s r c with
      | some target =>
        if color_of target ≠ color then [⟨idx, r * 8 + c, none⟩] else []
      | none =>
        ⟨(idx : Int), r * 8 + c, none⟩ ::
          slideRay s idx color dr dc (r + dr) (c + dc) fuel
    else []

/-- One-step moves shared by the knight and king blocks
(`rules.py` 215-221 and 258-264). -/
def stepMoves (s : State) (idx : Nat) (row col : Int) (color : Char)
    (offs : List (Int × Int)) : List Move :=
  offs.flatMap fun d =>
    let r := row + d.1
    let c := col + d.2
    if 0 ≤ r ∧ r < 8 ∧ 0 ≤ c ∧ c < 8 then
      match piece_at s r c with
      | some target =>
        if color_of target ≠ color then [⟨idx, r * 8 + c, none⟩] else []
      | none => [⟨idx, r * 8 + c, none⟩]
    else []

/-- The castling block of the king case (`rules.py` 265-283). -/
def castleMoves (s : State) (idx : Nat) (row col : Int) (color : Char) :
    List Move :=
  (if color = 'w' ∧ row = 7 ∧ col = 4 then
    (if 'K' ∈ s.castling_rights ∧ piece_at s 7 5 = none ∧
        piece_at s 7 6 = none ∧ in_check s 'w' = false ∧
        is_square_attacked s 7 5 'b' = false ∧
        is_square_attacked s 7 6 'b' = false ∧ piece_at s 7 7 = some 'R' then
      [⟨idx, 7 * 8 + 6, none⟩]
     else []) ++
    (if 'Q' ∈ s.castling_rights ∧ piece_at s 7 3 = none ∧
        piece_at s 7 2 = none ∧ piece_at s 7 1 = none ∧
        in_check s 'w' = false ∧ is_square_attacked s 7 3 'b' = false ∧
        is_square_attacked s 7 2 'b' = false ∧ piece_at s 7 0 = some 'R' then
      [⟨idx, 7 * 8 + 2, none⟩]
     else [])
   else []) ++
  (if color = 'b' ∧ row = 0 ∧ col = 4 then
    (if 'k' ∈ s.castling_rights ∧ piece_at s 0 5 = none ∧
        piece_at s 0 6 = none ∧ in_check s 'b' = false ∧
        is_square_attacked s 0 5 'w' = false ∧
        is_square_attacked s 0 6 'w' = false ∧ piece_at s 0 7 = some 'r' then
      [⟨idx, 0 * 8 + 6, none⟩]
     else []) ++
    (if 'q' ∈ s.castling_rights ∧ piece_at s 0 3 = none ∧
        piece_at s 0 2 = none ∧ piece_at s 0 1 = none ∧
        in_check s 'b' = false ∧ is_square_attacked s 0 3 'w' = false ∧
        is_square_attacked s 0 2 'w' = false ∧ piece_at s 0 0 = some 'r' then
      [⟨idx, 0 * 8 + 2, none⟩]
     else [])
   else [])

/-- The per-square dispatch of `generate_pseudo_legal_moves`
(`rules.py` 182-283): `row, col = divmod(idx, 8)` and an
`if`/`elif` chain on the lower-cased piece letter (anything else
generates nothing). -/
def pieceMovesAt (s : State) (idx : Nat) (piece : Char) : List Move :=
  let row : Int := (idx : Int) / 8
  let col : Int := (idx : Int) % 8
  let color := s.to_move
  if piece.toLower = 'p' then pawnMovesAt s idx row col color
  else if piece.toLower = 'n' then stepMoves s idx row col color KNIGHT_OFFSETS
  else if piece.toLower = 'b' then
    BISHOP_OFFSETS.flatMap fun d =>
      slideRay s idx color d.1 d.2 (row + d.1) (col + d.2) 8
  else if piece.toLower = 'r' then
    ROOK_OFFSETS.flatMap fun d =>
      slideRay s idx color d.1 d.2 (row + d.1) (col + d.2) 8
  else if piece.toLower = 'q' then
    (BISHOP_OFFSETS ++ ROOK_OFFSETS).flatMap fun d =>
      slideRay s idx color d.1 d.2 (row + d.1) (col + d.2) 8
  else if piece.toLower = 'k' then
    stepMoves s idx row col color KING_OFFSETS ++ castleMoves s idx row col color
  else []

/-- Source `generate_pseudo_legal_moves` (`rules.py` 179-284): scan
`enumerate(state.board)`, skipping empty squares and pieces of the
wrong color. -/
def generate_pseudo_legal_moves (s : State) : List Move :=
  (List.range s.board.length).flatMap fun idx =>
    match s.board.getD idx none with
    | some piece =>
      if color_of piece = s.to_move then pieceMovesAt s idx piece else []
    | none => []

/- == Move application and legality filtering, `rules.py` 287-380 == -/

/-- Python `set.discard`: remove an element (every occurrence, set
semantics).  Named `setDiscard` to avoid the core monadic `discard`. -/
def setDiscard (l : List Char) (c : Char) : List Char := l.filter (· != c)

/-- The king-move rights update of `apply_move` (`rules.py` 332-338):
any king move discards both of the mover's rights. -/
def rightsAfterKing (s : State) (p : Char) (rights : List Char) :
    List Char :=
  if p.toLower = 'k' then
    if s.to_move = 'w' then setDiscard (setDiscard rights 'K') 'Q'
    else setDiscard (setDiscard rights 'k') 'q'
  else rights

/-- The rook-origin rights update of `apply_move` (`rules.py` 339-348):
only applied when the moving piece is a rook. -/
def rightsAfterRookMove (m : Move) (p : Char) (rights : List Char) :
    List Char :=
  if p.toLower = 'r' then
    if m.from_sq = 56 then setDiscard rights 'Q'
    else if m.from_sq = 63 then setDiscard rights 'K'
    else if m.from_sq = 0 then setDiscard rights 'q'
    else if m.from_sq = 7 then setDiscard rights 'k'
    else rights
  else rights

/-- The captured-rook rights update of `apply_move`
(`rules.py` 349-358): only applied on a capture. -/
def rightsAfterCapture (m : Move) (capture : Bool) (rights : List Char) :
    List Char :=
  if capture then
    if m.to_sq = 56 then setDiscard rights 'Q'
    else if m.to_sq = 63 then setDiscard rights 'K'
    else if m.to_sq = 0 then setDiscard rights 'q'
    else if m.to_sq = 7 then setDiscard rights 'k'
    else rights
  else rights

/-- The castling-rights pipeline of `apply_move`: the copy at line 302,
the king update (333-338), the rook-origin update (340-348), the
captured-rook update (350-358) and the `"KQkq"` re-canonicalisation at
line 380. -/
def updatedRights (s : State) (m : Move) (p : Char) (capture : Bool) :
    List Char :=
  ['K', 'Q', 'k', 'q'].filter
    (· ∈ rightsAfterCapture m capture
      (rightsAfterRookMove m p (rightsAfterKing s p s.castling_rights)))

/-- The board mutations of `apply_move` (`rules.py` 306-331), given the
moving piece `p` (read at line 301) and the original destination content
`target?` (read at line 305): en-passant removal, piece relocation, the
promotion write, and the castling rook relocation, in source order.
Notable faithful details: the promotion expression at line 320 parses as
`promotion.upper() if w else (promotion.lower() if promotion else piece)`,
so a white promotion-rank move with no promotion raises
(`None.upper()`). -/
def boardAfter (s : State) (m : Move) (p : Char) (target? : Option Char) :
    Option (List (Option Char)) := do
  let rf := m.from_sq / 8
  let cf := m.from_sq % 8
  let rt := m.to_sq / 8
  let ct := m.to_sq % 8
  let epCap : Bool :=
    p.toLower = 'p' ∧ s.en_passant = some m.to_sq ∧ target? = none
  let board1 ←
    if epCap then
      if s.to_move = 'w' then pySet s.board ((rt + 1) * 8 + ct) none
      else pySet s.board ((rt - 1) * 8 + ct) none
    else pure s.board
  let board2 ← pySet board1 m.from_sq none
  let board3 ← pySet board2 m.to_sq (some p)
  let board4 ←
    if p.toLower = 'p' ∧ rt = (if s.to_move = 'w' then 0 else 7) then
      if s.to_move = 'w' then do
        let pr ← m.promotion
        pySet board3 m.to_sq (some pr.toUpper)
      else
        match m.promotion with
        | some pr => pySet board3 m.to_sq (some pr.toLower)
        | none => pySet board3 m.to_sq (some p)
    else pure board3
  if p.toLower = 'k' ∧ (ct - cf).natAbs = 2 then
    if ct = 6 then do
      let rookP ← pyGet board4 (rf * 8 + 7)
      let b ← pySet board4 (rf * 8 + 5) rookP
      pySet b (rf * 8 + 7) none
    else do
      let rookP ← pyGet board4 (rf * 8 + 0)
      let b ← pySet board4 (rf * 8 + 3) rookP
      pySet b (rf * 8 + 0) none
  else pure board4

/-- Source `apply_move` (`rules.py` 299-380), embedded by state passing: the
result is the value of the caller's `state` after the call, `none` a
raised exception (the failure conditions and their order are those of
the source: `board[move.from_sq]`, `board[move.to_sq]`, then the first
`piece.lower()` at line 307 which raises on an empty origin square, then
the board writes of `boardAfter`).  `capture` is the line 305 test
re-checked after the en-passant removal (line 312). -/
def apply_move (s : State) (m : Move) : Option State := do
  let piece? ← pyGet s.board m.from_sq
  let target? ← pyGet s.board m.to_sq
  let p ← piece?
  let capture : Bool :=
    target?.isSome ||
      (p.toLower = 'p' ∧ s.en_passant = some m.to_sq ∧ target? = none)
  let board5 ← boardAfter s m p target?
  pure { board := board5,
         to_move := opposite s.to_move,
         castling_rights := updatedRights s m p capture,
         en_passant :=
           if p.toLower = 'p' ∧
               (m.to_sq / 8 - m.from_sq / 8).natAbs = 2 then
             some ((m.from_sq / 8 + m.to_sq / 8) / 2 * 8 + m.to_sq % 8)
           else none,
         halfmove_clock :=
           if p.toLower = 'p' ∨ capture then 0 else s.halfmove_clock + 1,
         fullmove_number :=
           if s.to_move = 'b' then s.fullmove_number + 1
           else s.fullmove_number }

/-- The body of the legality test (`rules.py` 290-294): apply the move
to a clone and keep it when the player who just moved — the opposite of
the resulting side to move — is not in check.  `none` from `apply_move`
is a raised exception. -/
def legalKeep (s : State) (m : Move) : Bool :=
  match apply_move s.clone m with
  | some tmp => !(in_check tmp (opposite tmp.to_move))
  | none => false

/-- The filtering loop of `generate_legal_moves` (`rules.py` 288-295);
an exception from `apply_move` aborts the whole call. -/
def legalFilter (s : State) : List Move → Option (List Move)
  | [] => some []
  | mv :: rest => do
    let tmp ← apply_move s.clone mv
    let tail ← legalFilter s rest
    if in_check tmp (opposite tmp.to_move) then pure tail
    else pure (mv :: tail)

/-- Source `generate_legal_moves` (`rules.py` 287-296). -/
def generate_legal_moves (s : State) : Option (List Move) :=
  legalFilter s (generate_pseudo_legal_moves s)

/- == Terminal queries, `rules.py` lines 383-406 == -/

/-- Source `is_checkmate` (`rules.py` 383-386); `and` short-circuits, so move
generation only runs when the side to move is in check. -/
def is_checkmate (s : State) : Option Bool :=
  if in_check s s.to_move then (generate_legal_moves s).map List.isEmpty
  else some false

/-- Source `is_stalemate` (`rules.py` 389-392); move generation only runs when
the side to move is not in check. -/
def is_stalemate (s : State) : Option Bool :=
  if in_check s s.to_move then some false
  else (generate_legal_moves s).map List.isEmpty

/- == Session layer, `board.py` lines 10-45 == -/

structure Board where
  state : State
  history : List State
deriving DecidableEq, Repr

/-- Source `Board.make_move` (`board.py` 21-25): reject a move outside
`generate_legal_moves` (`ValueError`, modelled `none`), otherwise push a
clone of the current state and apply the move to it. -/
def Board.make_move (b : Board) (mv : Move) : Option Board := do
  let legals ← generate_legal_moves b.state
  if mv ∈ legals then do
    let s ← apply_move b.state mv
    pure ⟨s, b.history ++ [b.state.clone]⟩
  else none

/-- Source `Board.undo_move` (`board.py` 27-30): pop the last snapshot
(`ValueError` on an empty history, modelled `none`). -/
def Board.undo_move (b : Board) : Option Board :=
  match b.history.getLast? with
  | some s => some ⟨s, b.history.dropLast⟩
  | none => none

/- == Spec-level derived predicates and concrete fixtures == -/

/-- The capture test of `apply_move` (`rules.py` 305-312): the
destination is occupied, or a pawn moves onto the current en-passant
target (which is empty). -/
def isCapture (s : State) (m : Move) : Bool :=
  match pyGet s.board m.from_sq, pyGet s.board m.to_sq with
  | some (some p), some target? =>
    target?.isSome ||
      (p.toLower = 'p' ∧ s.en_passant = some m.to_sq ∧ target? = none)
  | _, _ => false

/-- A pawn double push in the spec's sense: the origin holds a pawn,
the move is two squares straight forward for that pawn's color, from
its starting rank. -/
def isDoublePush (s : State) (m : Move) : Bool :=
  match pyGet s.board m.from_sq with
  | some (some p) =>
    p.toLower = 'p' ∧
      (if color_of p = 'w' then
        m.to_sq = m.from_sq - 16 ∧ m.from_sq / 8 = 6
       else
        m.to_sq = m.from_sq + 16 ∧ m.from_sq / 8 = 1)
  | _ => false

/-- The square a double-stepped pawn passes over: the midpoint of
origin and destination. -/
def passed_over_square (m : Move) : Int := (m.from_sq + m.to_sq) / 2

/-- A placeholder used only as the default of `Option.getD` in the
concrete fixtures below; every fixture is proved to come from a `some`. -/
def stubState : State := ⟨[], 'w', [], none, 0, 1⟩

/-- Two bare kings, white to move: a1 and a8. -/
def kingsOnly : State :=
  (State.from_fen ("k7/8/8/8/8/8/8/K7 w - - 0 1").toList).getD stubState

def kingsLegal : List Move := (generate_legal_moves kingsOnly).getD []

/-- Kings a1/a8 plus a white pawn on a2, white to move. -/
def pawnStart : State :=
  (State.from_fen ("k7/8/8/8/8/8/P7/K7 w - - 0 1").toList).getD stubState

/-- A two-cell board holding a rook on index 0 (black queenside home
square a8) with rights `{K, q}`; `apply_move` neither reads nor needs
any other square for the move `0 → 1`. -/
def tinyRookState : State := ⟨[some 'R', none], 'w', ['K', 'q'], none, 0, 1⟩

def tinyRookAfter : State :=
  (apply_move tinyRookState ⟨0, 1, none⟩).getD stubState

def kingsBoard : Board := ⟨kingsOnly, []⟩

def kingsBoard1 : Board :=
  (kingsBoard.make_move ⟨56, 48, none⟩).getD ⟨stubState, []⟩

def kingsBoard2 : Board := kingsBoard1.undo_move.getD ⟨stubState, []⟩

/- == Helper lemmas == -/

theorem mem_setDiscard {x c : Char} {l : List Char} :
    x ∈ setDiscard l c ↔ x ∈ l ∧ x ≠ c := by
  simp [setDiscard, List.mem_filter, bne_iff_ne]

theorem opposite_ne (c : Char) : opposite c ≠ c := by
  unfold opposite
  split_ifs with h
  · rw [h]; decide
  · exact fun hh => h hh.symm

theorem setDiscard_subset {l : List Char} {c : Char} :
    ∀ x ∈ setDiscard l c, x ∈ l :=
  fun _ hx => (mem_setDiscard.mp hx).1

theorem rightsAfterKing_subset (s : State) (p : Char) (rights : List Char) :
    ∀ x ∈ rightsAfterKing s p rights, x ∈ rights := by
  intro x hx
  unfold rightsAfterKing at hx
  split_ifs at hx <;>
    first
      | exact hx
      | exact setDiscard_subset x (setDiscard_subset x hx)

theorem rightsAfterRookMove_subset (m : Move) (p : Char)
    (rights : List Char) :
    ∀ x ∈ rightsAfterRookMove m p rights, x ∈ rights := by
  intro x hx
  unfold rightsAfterRookMove at hx
  split_ifs at hx <;> first | exact hx | exact setDiscard_subset x hx

theorem rightsAfterCapture_subset (m : Move) (cap : Bool)
    (rights : List Char) :
    ∀ x ∈ rightsAfterCapture m cap rights, x ∈ rights := by
  intro x hx
  unfold rightsAfterCapture at hx
  split_ifs at hx <;> first | exact hx | exact setDiscard_subset x hx

theorem updatedRights_subset (s : State) (m : Move) (p : Char) (cap : Bool) :
    ∀ c ∈ updatedRights s m p cap, c ∈ s.castling_rights := by
  intro c hc
  unfold updatedRights at hc
  rw [List.mem_filter, decide_eq_true_eq] at hc
  exact rightsAfterKing_subset s p s.castling_rights c
    (rightsAfterRookMove_subset m p _ c
      (rightsAfterCapture_subset m cap _ c hc.2))

/-- Destructuring `apply_move` on success: the moving piece and the
destination content were read successfully, and the side to move,
castling rights and en-passant fields of the result are the source's
update expressions. -/
theorem apply_move_fields (s : State) (m : Move) (t : State)
    (h : apply_move s m = some t) :
    ∃ p target?, pyGet s.board m.from_sq = some (some p) ∧
      pyGet s.board m.to_sq = some target? ∧
      t.to_move = opposite s.to_move ∧
      t.castling_rights = updatedRights s m p
        (target?.isSome ||
          decide (p.toLower = 'p' ∧ s.en_passant = some m.to_sq ∧
            target? = none)) ∧
      t.en_passant =
        (if p.toLower = 'p' ∧
            (m.to_sq / 8 - m.from_sq / 8).natAbs = 2 then
          some ((m.from_sq / 8 + m.to_sq / 8) / 2 * 8 + m.to_sq % 8)
         else none) := by
  simp only [apply_move, bind, Option.bind_eq_some, Option.pure_def,
    Option.some.injEq] at h
  obtain ⟨p?, h1, tg, h2, p, hp, b5, hb5, hfin⟩ := h
  subst hp
  subst hfin
  exact ⟨p, tg, h1, h2, rfl, rfl, rfl⟩

theorem notMem_setDiscard_self (l : List Char) (c : Char) :
    c ∉ setDiscard l c := by
  simp [mem_setDiscard]

theorem notMem_rightsAfterCapture {x : Char} {rights : List Char}
    (m : Move) (cap : Bool) (h : x ∉ rights) :
    x ∉ rightsAfterCapture m cap rights :=
  fun hx => h (rightsAfterCapture_subset m cap rights x hx)

theorem notMem_updatedRights (s : State) (m : Move) (p : Char) (cap : Bool)
    {x : Char}
    (h : x ∉ rightsAfterCapture m cap
      (rightsAfterRookMove m p (rightsAfterKing s p s.castling_rights))) :
    x ∉ updatedRights s m p cap := by
  intro hx
  unfold updatedRights at hx
  rw [List.mem_filter, decide_eq_true_eq] at hx
  exact h hx.2

theorem rookMove_clears (m : Move) (p : Char) (rights : List Char)
    (hr : p.toLower = 'r') :
    (m.from_sq = 56 → 'Q' ∉ rightsAfterRookMove m p rights) ∧
    (m.from_sq = 63 → 'K' ∉ rightsAfterRookMove m p rights) ∧
    (m.from_sq = 0 → 'q' ∉ rightsAfterRookMove m p rights) ∧
    (m.from_sq = 7 → 'k' ∉ rightsAfterRookMove m p rights) := by
  refine ⟨?_, ?_, ?_, ?_⟩ <;> intro hsq <;>
    simp [rightsAfterRookMove, hr, hsq] <;>
    exact notMem_setDiscard_self _ _

theorem capture_clears (m : Move) (rights : List Char) :
    (m.to_sq = 56 → 'Q' ∉ rightsAfterCapture m true rights) ∧
    (m.to_sq = 63 → 'K' ∉ rightsAfterCapture m true rights) ∧
    (m.to_sq = 0 → 'q' ∉ rightsAfterCapture m true rights) ∧
    (m.to_sq = 7 → 'k' ∉ rightsAfterCapture m true rights) := by
  refine ⟨?_, ?_, ?_, ?_⟩ <;> intro hsq <;>
    simp [rightsAfterCapture, hsq] <;>
    exact notMem_setDiscard_self _ _

theorem isCapture_eq (s : State) (m : Move) (p : Char) (tg : Option Char)
    (hpg : pyGet s.board m.from_sq = some (some p))
    (htg : pyGet s.board m.to_sq = some tg) :
    isCapture s m =
      (tg.isSome ||
        decide (p.toLower = 'p' ∧ s.en_passant = some m.to_sq ∧
          tg = none)) := by
  simp [isCapture, hpg, htg]

/- == Claim theorems == -/

/-- C2, counterexample: the claim says `apply` leaves every field of the
input position unchanged after the call.  In the state-passing embedding
the caller's position after `apply_move` is the returned state; from the
standard starting position, applying e2e4 (`52 → 36`) changes the
side-to-move field from `'w'` to `'b'`, so the claim fails at this
concrete input. -/
theorem c2_counterexample :
    ((State.from_fen
        ("rnbqkbnr/pppppppp/8/8/8/8/PPPPPPPP/RNBQKBNR w KQkq - 0 1").toList).bind
      (fun s => apply_move s ⟨52, 36, none⟩)).map State.to_move = some 'b' ∧
    (State.from_fen
        ("rnbqkbnr/pppppppp/8/8/8/8/PPPPPPPP/RNBQKBNR w KQkq - 0 1").toList).map
      State.to_move = some 'w' := by
  constructor <;> decide

/-- C2, amended: `apply_move` mutates its input in place (it returns
`None` in the source); after a successful call the caller's position is
the post-move state, whose side to move is always flipped — so at least
one field always differs from the pre-move value.  Callers that need
the old position clone it first (`generate_legal_moves` applies to a
clone, `Board.make_move` snapshots before applying). -/
theorem c2_apply_move_mutates (s : State) (m : Move) (t : State)
    (h : apply_move s m = some t) :
    t.to_move = opposite s.to_move ∧ t.to_move ≠ s.to_move := by
  obtain ⟨p, tg, -, -, hto, -, -⟩ := apply_move_fields s m t h
  exact ⟨hto, hto ▸ opposite_ne s.to_move⟩

/-- C2, witness for the amended theorem at a concrete input. -/
theorem c2_witness :
    apply_move tinyRookState ⟨0, 1, none⟩ = some tinyRookAfter ∧
    tinyRookAfter.to_move = opposite tinyRookState.to_move ∧
    tinyRookAfter.to_move ≠ tinyRookState.to_move :=
  ⟨by decide,
    c2_apply_move_mutates tinyRookState ⟨0, 1, none⟩ tinyRookAfter (by decide)⟩

/-- C10: castling rights are monotonically non-increasing under
`apply_move`: every flag held afterwards was held before. -/
theorem c10_rights_monotone (s : State) (m : Move) (t : State)
    (h : apply_move s m = some t) :
    ∀ c ∈ t.castling_rights, c ∈ s.castling_rights := by
  obtain ⟨p, tg, -, -, -, hr, -⟩ := apply_move_fields s m t h
  rw [hr]
  exact updatedRights_subset s m p _

/-- C10, witness at a concrete input. -/
theorem c10_witness :
    apply_move tinyRookState ⟨0, 1, none⟩ = some tinyRookAfter ∧
    'K' ∈ tinyRookState.castling_rights :=
  ⟨by decide,
    c10_rights_monotone tinyRookState ⟨0, 1, none⟩ tinyRookAfter (by decide)
      'K' (by decide)⟩

/-- C4, counterexample: the claim says the queenside right is cleared
whenever a1 (index 56) is the origin square regardless of the moving
piece's kind.  With a white queen on a1 and the right `Q` still held
(a position `from_fen` accepts), the move a1a2 keeps `Q`: the source
only applies the origin rule to rook moves (`rules.py` 340). -/
theorem c4_counterexample :
    ((State.from_fen ("k7/8/8/8/8/8/8/Q3K3 w Q - 0 1").toList).bind
      (fun s => apply_move s ⟨56, 48, none⟩)).map State.castling_rights =
      some ['Q'] := by
  decide

/-- C4, amended: the origin-square rights clearing applies only when
the moving piece is a rook standing on the rook home square; the
destination-square clearing applies (to any captured piece) exactly on
capturing moves, where the capture test is the source's line 305-312
test. -/
theorem c4_rights_clearing (s : State) (m : Move) (t : State)
    (h : apply_move s m = some t) :
    (∀ p : Char, pyGet s.board m.from_sq = some (some p) →
      p.toLower = 'r' →
      ((m.from_sq = 56 → 'Q' ∉ t.castling_rights) ∧
       (m.from_sq = 63 → 'K' ∉ t.castling_rights) ∧
       (m.from_sq = 0 → 'q' ∉ t.castling_rights) ∧
       (m.from_sq = 7 → 'k' ∉ t.castling_rights))) ∧
    (isCapture s m = true →
      ((m.to_sq = 56 → 'Q' ∉ t.castling_rights) ∧
       (m.to_sq = 63 → 'K' ∉ t.castling_rights) ∧
       (m.to_sq = 0 → 'q' ∉ t.castling_rights) ∧
       (m.to_sq = 7 → 'k' ∉ t.castling_rights))) := by
  obtain ⟨p0, tg, hpg, htg, -, hr, -⟩ := apply_move_fields s m t h
  constructor
  · intro p hp hrook
    rw [hpg] at hp
    obtain rfl : p0 = p := Option.some.inj (Option.some.inj hp)
    rw [hr]
    obtain ⟨h56, h63, h0, h7⟩ :=
      rookMove_clears m p0 (rightsAfterKing s p0 s.castling_rights) hrook
    exact ⟨fun hq => notMem_updatedRights s m p0 _
        (notMem_rightsAfterCapture m _ (h56 hq)),
      fun hq => notMem_updatedRights s m p0 _
        (notMem_rightsAfterCapture m _ (h63 hq)),
      fun hq => notMem_updatedRights s m p0 _
        (notMem_rightsAfterCapture m _ (h0 hq)),
      fun hq => notMem_updatedRights s m p0 _
        (notMem_rightsAfterCapture m _ (h7 hq))⟩
  · intro hcap
    rw [isCapture_eq s m p0 tg hpg htg] at hcap
    rw [hr, hcap]
    obtain ⟨h56, h63, h0, h7⟩ := capture_clears m
      (rightsAfterRookMove m p0 (rightsAfterKing s p0 s.castling_rights))
    exact ⟨fun hq => notMem_updatedRights s m p0 _ (h56 hq),
      fun hq => notMem_updatedRights s m p0 _ (h63 hq),
      fun hq => notMem_updatedRights s m p0 _ (h0 hq),
      fun hq => notMem_updatedRights s m p0 _ (h7 hq)⟩

/-- C4, witness for the amended theorem: a rook moving off index 0
(the black queenside home) clears `q`. -/
theorem c4_witness :
    apply_move tinyRookState ⟨0, 1, none⟩ = some tinyRookAfter ∧
    'q' ∉ tinyRookAfter.castling_rights :=
  ⟨by decide,
    ((c4_rights_clearing tinyRookState ⟨0, 1, none⟩ tinyRookAfter
        (by decide)).1 'R' (by decide) (by decide)).2.2.1 (by decide)⟩

/-- C3: evaluation at the failing input.  The claim (and the spec) says
a final-rank pawn move with no promotion kind is left unpromoted without
error for both colors.  On the white side the source's line 320 parses
as `promotion.upper() if w else (promotion.lower() if promotion else
piece)`, so `None.upper()` raises `AttributeError` (first conjunct,
`none`); the lenient fallback only exists for black (second conjunct);
with a kind supplied both colors promote as described (last two
conjuncts). -/
theorem c3_promotion_eval :
    ((State.from_fen ("8/P7/8/8/8/8/7p/7K w - - 0 1").toList).bind
      (fun s => apply_move s ⟨8, 0, none⟩)) = none ∧
    ((State.from_fen ("7k/8/8/8/8/8/p6P/7K b - - 0 1").toList).bind
      (fun s => apply_move s ⟨48, 56, none⟩)).map
        (fun t => t.board.getD 56 none) = some (some 'p') ∧
    ((State.from_fen ("8/P7/8/8/8/8/7p/7K w - - 0 1").toList).bind
      (fun s => apply_move s ⟨8, 0, some 'q'⟩)).map
        (fun t => t.board.getD 0 none) = some (some 'Q') ∧
    ((State.from_fen ("7k/8/8/8/8/8/p6P/7K b - - 0 1").toList).bind
      (fun s => apply_move s ⟨48, 56, some 'n'⟩)).map
        (fun t => t.board.getD 56 none) = some (some 'n') := by
  refine ⟨?_, ?_, ?_, ?_⟩ <;> decide

set_option maxRecDepth 10000 in
/-- C6: from the default starting FEN used by `Board.__init__`,
`generate_legal_moves` returns exactly 20 moves for white. -/
theorem c6_start_position_twenty :
    ((State.from_fen
        ("rnbqkbnr/pppppppp/8/8/8/8/PPPPPPPP/RNBQKBNR w KQkq - 0 1").toList).bind
      generate_legal_moves).map List.length = some 20 := by
  decide

/-- C8, counterexample: the claim says invalid algebraic square text —
for example a rank digit outside 1..8 — and invalid promotion letters
fail fast at the parsing boundary.  `square_index "a9"` instead returns
the out-of-board index `-8`, and `Move.from_uci "e7e8x"` accepts the
promotion letter `x` verbatim. -/
theorem c8_counterexample :
    square_index ("a9").toList = some (-8) ∧
    Move.from_uci ("e7e8x").toList = some ⟨12, 4, some 'x'⟩ := by
  constructor <;> decide

/-- C8, amended: the parsers reject an unknown file letter, a non-digit
rank character, a wrong field count, and non-integer counters, but they
accept out-of-range rank digits (yielding out-of-board indices),
arbitrary promotion letters, and arbitrary board characters without
error. -/
theorem c8_parsing_boundary :
    square_index ("i4").toList = none ∧
    square_index ("ax").toList = none ∧
    square_index ("a9").toList = some (-8) ∧
    square_index ("a0").toList = some 64 ∧
    Move.from_uci ("e7e8x").toList = some ⟨12, 4, some 'x'⟩ ∧
    State.from_fen ("8/8/8/8/8/8/8/8 w - - 0").toList = none ∧
    State.from_fen ("8/8/8/8/8/8/8/8 w - - x 1").toList = none ∧
    (State.from_fen ("zzz w - - 0 1").toList).isSome = true := by
  refine ⟨?_, ?_, ?_, ?_, ?_, ?_, ?_, ?_⟩ <;> decide

/-- C9, counterexample: the claim says the terminal queries never crash
when a side's king is missing.  In this position white (to move) has no
king, but `is_stalemate` generates moves and applies the pseudo-legal
en-passant capture a7xb8 (the source generates it without a promotion
kind), whose application raises on `None.upper()` — `is_stalemate`
propagates the exception (`none`) instead of reporting a value. -/
theorem c9_counterexample :
    (State.from_fen ("8/P7/8/8/8/8/8/7k w - b8 0 1").toList).map
      (fun s => king_position s s.to_move) = some none ∧
    (State.from_fen ("8/P7/8/8/8/8/8/7k w - b8 0 1").toList).bind
      is_stalemate = none := by
  constructor <;> decide

/-- C9, amended: `in_check` returns `false` (rather than raising) when
the given color has no king, and `is_checkmate` returns `false` without
running move generation when the side to move has no king; the
`is_stalemate` guarantee does not hold in general (see the
counterexample). -/
theorem c9_no_king_defensive :
    (∀ (s : State) (c : Char), king_position s c = none →
      in_check s c = false) ∧
    (∀ s : State, king_position s s.to_move = none →
      is_checkmate s = some false) := by
  have h1 : ∀ (s : State) (c : Char), king_position s c = none →
      in_check s c = false := by
    intro s c h
    simp [in_check, h]
  refine ⟨h1, fun s h => ?_⟩
  simp [is_checkmate, h1 s s.to_move h]

/-- C9, witness for the amended theorem at a concrete kingless state. -/
theorem c9_witness :
    in_check stubState 'w' = false ∧ is_checkmate stubState = some false :=
  ⟨(c9_no_king_defensive).1 stubState 'w' (by decide),
    (c9_no_king_defensive).2 stubState (by decide)⟩

/-- Membership characterization of the legality-filter loop: when the
loop completes (no `apply_move` exception), a move is kept exactly when
it occurs in the scanned list and passes the try-and-check test. -/
theorem legalFilter_mem (s : State) (m : Move) :
    ∀ (l ms : List Move), legalFilter s l = some ms →
      (m ∈ ms ↔ m ∈ l ∧ legalKeep s m = true) := by
  intro l
  induction l with
  | nil =>
    intro ms h
    simp only [legalFilter, Option.some.injEq] at h
    subst h
    simp
  | cons mv rest ih =>
    intro ms h
    simp only [legalFilter, bind, Option.bind_eq_some] at h
    obtain ⟨tmp, htmp, tail, htail, hms⟩ := h
    by_cases hchk : in_check tmp (opposite tmp.to_move)
    · rw [if_pos hchk] at hms
      obtain rfl : tail = ms := by simpa using hms
      constructor
      · intro hmem
        obtain ⟨h1, h2⟩ := (ih tail htail).mp hmem
        exact ⟨List.mem_cons_of_mem _ h1, h2⟩
      · rintro ⟨hmem, hkeep⟩
        rcases List.mem_cons.mp hmem with rfl | hmem2
        · exfalso
          simp [legalKeep, htmp, hchk] at hkeep
        · exact (ih tail htail).mpr ⟨hmem2, hkeep⟩
    · rw [if_neg hchk] at hms
      obtain rfl : mv :: tail = ms := by simpa using hms
      constructor
      · intro hmem
        rcases List.mem_cons.mp hmem with rfl | hmem2
        · refine ⟨List.mem_cons_self _ _, ?_⟩
          simp [legalKeep, htmp, hchk]
        · obtain ⟨h1, h2⟩ := (ih tail htail).mp hmem2
          exact ⟨List.mem_cons_of_mem _ h1, h2⟩
      · rintro ⟨hmem, hkeep⟩
        rcases List.mem_cons.mp hmem with rfl | hmem2
        · exact List.mem_cons_self _ _
        · exact List.mem_cons_of_mem _ ((ih tail htail).mpr ⟨hmem2, hkeep⟩)

/-- C1: when `generate_legal_moves` returns a list, a move is in it if
and only if it is pseudo-legal and applying it to a clone of the
position yields a position in which the side that just moved (the
opposite of the resulting side to move) is not in check — `legalKeep`
is literally that test. -/
theorem c1_legal_iff (s : State) (ms : List Move)
    (h : generate_legal_moves s = some ms) (m : Move) :
    m ∈ ms ↔ m ∈ generate_pseudo_legal_moves s ∧ legalKeep s m = true :=
  legalFilter_mem s m (generate_pseudo_legal_moves s) ms h

/-- C1, witness at a concrete position (kings on a1 and a8). -/
theorem c1_witness :
    generate_legal_moves kingsOnly = some kingsLegal ∧
    ((⟨56, 48, none⟩ : Move) ∈ generate_pseudo_legal_moves kingsOnly ∧
      legalKeep kingsOnly ⟨56, 48, none⟩ = true) :=
  ⟨by decide,
    (c1_legal_iff kingsOnly kingsLegal (by decide) ⟨56, 48, none⟩).mp
      (by decide)⟩

/-- C7: a successful `Board.make_move` followed by `Board.undo_move`
restores a position equal to the original in every field. -/
theorem c7_make_undo (b : Board) (mv : Move) (b1 b2 : Board)
    (h1 : b.make_move mv = some b1) (h2 : b1.undo_move = some b2) :
    b2.state.board = b.state.board ∧
    b2.state.to_move = b.state.to_move ∧
    b2.state.castling_rights = b.state.castling_rights ∧
    b2.state.en_passant = b.state.en_passant ∧
    b2.state.halfmove_clock = b.state.halfmove_clock ∧
    b2.state.fullmove_number = b.state.fullmove_number := by
  simp only [Board.make_move, bind, Option.bind_eq_some] at h1
  obtain ⟨legals, hleg, h1⟩ := h1
  by_cases hmem : mv ∈ legals
  · rw [if_pos hmem] at h1
    simp only [bind, Option.bind_eq_some] at h1
    obtain ⟨s2, hs2, hb1⟩ := h1
    obtain rfl : (⟨s2, b.history ++ [b.state.clone]⟩ : Board) = b1 := by
      simpa using hb1
    unfold Board.undo_move at h2
    rw [List.getLast?_concat] at h2
    simp only [Option.some.injEq] at h2
    subst h2
    exact ⟨rfl, rfl, rfl, rfl, rfl, rfl⟩
  · rw [if_neg hmem] at h1
    exact absurd h1 (by simp)

/-- C7, witness: make then undo of a1a2 on the two-kings position. -/
theorem c7_witness :
    kingsBoard.make_move ⟨56, 48, none⟩ = some kingsBoard1 ∧
    kingsBoard1.undo_move = some kingsBoard2 ∧
    (kingsBoard2.state.board = kingsBoard.state.board ∧
     kingsBoard2.state.to_move = kingsBoard.state.to_move ∧
     kingsBoard2.state.castling_rights = kingsBoard.state.castling_rights ∧
     kingsBoard2.state.en_passant = kingsBoard.state.en_passant ∧
     kingsBoard2.state.halfmove_clock = kingsBoard.state.halfmove_clock ∧
     kingsBoard2.state.fullmove_number = kingsBoard.state.fullmove_number) :=
  ⟨by decide, by decide,
    c7_make_undo kingsBoard ⟨56, 48, none⟩ kingsBoard1 kingsBoard2
      (by decide) (by decide)⟩

/-- Every move emitted by a sliding ray has the generating square as its
origin. -/
theorem slideRay_from (s : State) (idx : Nat) (color : Char) (dr dc : Int) :
    ∀ (fuel : Nat) (r c : Int) (m : Move),
      m ∈ slideRay s idx color dr dc r c fuel → m.from_sq = (idx : Int) := by
  intro fuel
  induction fuel with
  | zero =>
    intro r c m hm
    simp [slideRay] at hm
  | succ n ih =>
    intro r c m hm
    unfold slideRay at hm
    split at hm
    · split at hm
      · split at hm
        · simp only [List.mem_singleton] at hm
          subst hm
          rfl
        · simp at hm
      · rcases List.mem_cons.mp hm with rfl | hm2
        · rfl
        · exact ih _ _ _ hm2
    · simp at hm

/-- Every one-step knight/king move has the generating square as its
origin. -/
theorem stepMoves_from (s : State) (idx : Nat) (row col : Int)
    (color : Char) (offs : List (Int × Int)) (m : Move)
    (hm : m ∈ stepMoves s idx row col color offs) :
    m.from_sq = (idx : Int) := by
  simp only [stepMoves, List.mem_flatMap] at hm
  obtain ⟨d, -, hm⟩ := hm
  split at hm
  · split at hm
    · split at hm
      · simp only [List.mem_singleton] at hm
        subst hm
        rfl
      · simp at hm
    · simp only [List.mem_singleton] at hm
      subst hm
      rfl
  · simp at hm

/-- Every castling move has the generating square as its origin. -/
theorem castleMoves_from (s : State) (idx : Nat) (row col : Int)
    (color : Char) (m : Move) (hm : m ∈ castleMoves s idx row col color) :
    m.from_sq = (idx : Int) := by
  have single : ∀ (a : Int) (pk : Option Char),
      m ∈ ([⟨(idx : Int), a, pk⟩] : List Move) → m.from_sq = (idx : Int) := by
    intro a pk hx
    rw [List.mem_singleton.mp hx]
  have wing : ∀ (P Q : Prop) [Decidable P] [Decidable Q] (a b : Int),
      m ∈ ((if P then [(⟨(idx : Int), a, none⟩ : Move)] else []) ++
        (if Q then [(⟨(idx : Int), b, none⟩ : Move)] else [])) →
      m.from_sq = (idx : Int) := by
    intro P Q _ _ a b hx
    rcases List.mem_append.mp hx with hx2 | hx2 <;> split at hx2
    · exact single _ _ hx2
    · exact absurd hx2 (List.not_mem_nil m)
    · exact single _ _ hx2
    · exact absurd hx2 (List.not_mem_nil m)
  simp only [castleMoves] at hm
  rcases List.mem_append.mp hm with hm | hm <;> split at hm
  · exact wing _ _ _ _ hm
  · exact absurd hm (List.not_mem_nil m)
  · exact wing _ _ _ _ hm
  · exact absurd hm (List.not_mem_nil m)

/-- Every pawn move has the generating square as its origin. -/
theorem pawnMovesCore_from (s : State) (idx : Nat) (row col : Int)
    (color : Char) (dir start promoRow : Int) (m : Move)
    (hm : m ∈ pawnMovesCore s idx row col color dir start promoRow) :
    m.from_sq = (idx : Int) := by
  have single : ∀ (a : Int) (pk : Option Char),
      m ∈ ([⟨(idx : Int), a, pk⟩] : List Move) → m.from_sq = (idx : Int) := by
    intro a pk hx
    rw [List.mem_singleton.mp hx]
  have promos : ∀ a : Int,
      m ∈ (['q', 'r', 'b', 'n'].map fun pk =>
        (⟨(idx : Int), a, some pk⟩ : Move)) → m.from_sq = (idx : Int) := by
    intro a hx
    obtain ⟨pk, -, hme⟩ := List.mem_map.mp hx
    rw [← hme]
  have promoOrSingle : ∀ (P : Prop) [Decidable P] (a : Int),
      m ∈ (if P then
          ['q', 'r', 'b', 'n'].map fun pk => (⟨(idx : Int), a, some pk⟩ : Move)
        else [(⟨(idx : Int), a, none⟩ : Move)]) →
      m.from_sq = (idx : Int) := by
    intro P _ a hx
    split at hx
    · exact promos _ hx
    · exact single _ _ hx
  simp only [pawnMovesCore] at hm
  rcases List.mem_append.mp hm with hm | hm
  · split at hm
    · rcases List.mem_append.mp hm with hm2 | hm2
      · exact promoOrSingle _ _ hm2
      · split at hm2
        · exact single _ _ hm2
        · exact absurd hm2 (List.not_mem_nil m)
    · exact absurd hm (List.not_mem_nil m)
  · obtain ⟨dc, -, hm⟩ := List.mem_flatMap.mp hm
    split at hm
    · split at hm
      · split at hm
        · exact promoOrSingle _ _ hm
        · split at hm
          · exact single _ _ hm
          · exact absurd hm (List.not_mem_nil m)
      · split at hm
        · exact single _ _ hm
        · exact absurd hm (List.not_mem_nil m)
    · exact absurd hm (List.not_mem_nil m)

/-- Every pawn move has the generating square as its origin. -/
theorem pawnMovesAt_from (s : State) (idx : Nat) (row col : Int)
    (color : Char) (m : Move) (hm : m ∈ pawnMovesAt s idx row col color) :
    m.from_sq = (idx : Int) :=
  pawnMovesCore_from _ _ _ _ _ _ _ _ _ hm

/-- Every generated move has the generating square as its origin. -/
theorem pieceMovesAt_from (s : State) (idx : Nat) (piece : Char) (m : Move)
    (hm : m ∈ pieceMovesAt s idx piece) : m.from_sq = (idx : Int) := by
  simp only [pieceMovesAt] at hm
  split at hm
  · exact pawnMovesAt_from _ _ _ _ _ _ hm
  · split at hm
    · exact stepMoves_from _ _ _ _ _ _ _ hm
    · split at hm
      · obtain ⟨d, -, hm⟩ := List.mem_flatMap.mp hm
        exact slideRay_from _ _ _ _ _ _ _ _ _ hm
      · split at hm
        · obtain ⟨d, -, hm⟩ := List.mem_flatMap.mp hm
          exact slideRay_from _ _ _ _ _ _ _ _ _ hm
        · split at hm
          · obtain ⟨d, -, hm⟩ := List.mem_flatMap.mp hm
            exact slideRay_from _ _ _ _ _ _ _ _ _ hm
          · split at hm
            · rcases List.mem_append.mp hm with hm | hm
              · exact stepMoves_from _ _ _ _ _ _ _ hm
              · exact castleMoves_from _ _ _ _ _ _ hm
            · exact absurd hm (List.not_mem_nil m)

/-- A pseudo-legal move comes from some occupied square holding a piece
of the side to move. -/
theorem mem_pseudo_decomp (s : State) (m : Move)
    (hm : m ∈ generate_pseudo_legal_moves s) :
    ∃ (idx : Nat) (piece : Char), idx < s.board.length ∧
      s.board.getD idx none = some piece ∧ color_of piece = s.to_move ∧
      m ∈ pieceMovesAt s idx piece := by
  simp only [generate_pseudo_legal_moves, List.mem_flatMap,
    List.mem_range] at hm
  obtain ⟨idx, hidx, hm⟩ := hm
  split at hm
  · rename_i piece heq
    split at hm
    · rename_i hcol
      exact ⟨idx, piece, hidx, heq, hcol, hm⟩
    · exact absurd hm (List.not_mem_nil m)
  · exact absurd hm (List.not_mem_nil m)

/-- Reading with `pyGet` at a valid in-range natural index is a plain list read. -/
theorem pyGet_getD (l : List (Option Char)) (idx : Nat)
    (h : idx < l.length) :
    pyGet l (idx : Int) = some (l.getD idx none) := by
  unfold pyGet
  rw [if_pos ⟨Int.natCast_nonneg idx, by exact_mod_cast h⟩,
    Int.toNat_natCast]

/-- Shape of a pawn move spanning two rows: among the moves the pawn
block emits for the square `idx`, only the double push moves two rows,
and it is a straight two-step from the start rank. -/
theorem pawnMovesCore_two_rows (s : State) (idx : Nat) (color : Char)
    (dir start promoRow : Int) (m : Move)
    (hm : m ∈ pawnMovesCore s idx ((idx : Int) / 8) ((idx : Int) % 8) color
      dir start promoRow)
    (h2 : (m.to_sq / 8 - m.from_sq / 8).natAbs = 2)
    (hdir : dir = -1 ∨ dir = 1) :
    m.to_sq = m.from_sq + 16 * dir ∧ m.from_sq / 8 = start ∧
      m.from_sq = (idx : Int) := by
  simp only [pawnMovesCore] at hm
  rcases List.mem_append.mp hm with hm | hm
  · split at hm
    · rcases List.mem_append.mp hm with hm2 | hm2
      · split at hm2
        · obtain ⟨pk, -, hme⟩ := List.mem_map.mp hm2
          have hf : m.from_sq = (idx : Int) := by rw [← hme]
          have ht : m.to_sq =
              ((idx : Int) / 8 + dir) * 8 + (idx : Int) % 8 := by
            rw [← hme]
          exfalso
          omega
        · have hme := List.mem_singleton.mp hm2
          have hf : m.from_sq = (idx : Int) := by rw [hme]
          have ht : m.to_sq =
              ((idx : Int) / 8 + dir) * 8 + (idx : Int) % 8 := by
            rw [hme]
          exfalso
          omega
      · split at hm2
        · rename_i hc2
          have hme := List.mem_singleton.mp hm2
          have hf : m.from_sq = (idx : Int) := by rw [hme]
          have ht : m.to_sq =
              ((idx : Int) / 8 + dir + dir) * 8 + (idx : Int) % 8 := by
            rw [hme]
          obtain ⟨hstart, -⟩ := hc2
          refine ⟨?_, ?_, hf⟩ <;> omega
        · exact absurd hm2 (List.not_mem_nil m)
    · exact absurd hm (List.not_mem_nil m)
  · obtain ⟨dc, -, hm⟩ := List.mem_flatMap.mp hm
    split at hm
    · rename_i hc1
      have cap_to : ∀ (pk : Option Char),
          m = ⟨(idx : Int), ((idx : Int) / 8 + dir) * 8 +
            ((idx : Int) % 8 + dc), pk⟩ → False := by
        intro pk hme
        have hf : m.from_sq = (idx : Int) := by rw [hme]
        have ht : m.to_sq = ((idx : Int) / 8 + dir) * 8 +
            ((idx : Int) % 8 + dc) := by rw [hme]
        omega
      split at hm
      · split at hm
        · split at hm
          · obtain ⟨pk, -, hme⟩ := List.mem_map.mp hm
            exact absurd hme.symm (fun h => cap_to _ h)
          · exact absurd (List.mem_singleton.mp hm) (fun h => cap_to _ h)
        · split at hm
          · exact absurd (List.mem_singleton.mp hm) (fun h => cap_to _ h)
          · exact absurd hm (List.not_mem_nil m)
      · split at hm
        · exact absurd (List.mem_singleton.mp hm) (fun h => cap_to _ h)
        · exact absurd hm (List.not_mem_nil m)
    · exact absurd hm (List.not_mem_nil m)

/-- For a pseudo-legal move whose origin square holds `p`, the source's
en-passant condition (`piece` is a pawn and the move spans two rows,
`rules.py` 361) holds exactly when the move is a double push in the
spec's sense. -/
theorem isDoublePush_iff_two_rows (s : State) (m : Move) (p : Char)
    (hm : m ∈ generate_pseudo_legal_moves s)
    (hpg : pyGet s.board m.from_sq = some (some p)) :
    isDoublePush s m = true ↔
      (p.toLower = 'p' ∧ (m.to_sq / 8 - m.from_sq / 8).natAbs = 2) := by
  constructor
  · intro hd
    simp only [isDoublePush, hpg, decide_eq_true_eq] at hd
    obtain ⟨hpawn, hcond⟩ := hd
    refine ⟨hpawn, ?_⟩
    split at hcond <;> omega
  · rintro ⟨hpawn, h2⟩
    obtain ⟨idx, piece, hlen, hget, hcol, hmem⟩ := mem_pseudo_decomp s m hm
    have hfrom := pieceMovesAt_from s idx piece m hmem
    have hpg2 : pyGet s.board m.from_sq = some (some piece) := by
      rw [hfrom, pyGet_getD s.board idx hlen, hget]
    have hpp : piece = p := by
      rw [hpg2] at hpg
      exact Option.some.inj (Option.some.inj hpg)
    subst hpp
    simp only [pieceMovesAt] at hmem
    rw [if_pos hpawn] at hmem
    simp only [isDoublePush, hpg, decide_eq_true_eq]
    refine ⟨hpawn, ?_⟩
    by_cases hw : s.to_move = 'w'
    · rw [hw] at hmem
      have hmem2 : m ∈ pawnMovesCore s idx ((idx : Int) / 8)
          ((idx : Int) % 8) 'w' (-1) 6 0 := hmem
      obtain ⟨hto, hrank, -⟩ :=
        pawnMovesCore_two_rows s idx 'w' (-1) 6 0 m hmem2 h2 (Or.inl rfl)
      have hcw : color_of piece = 'w' := by rw [hcol, hw]
      rw [if_pos hcw]
      constructor <;> omega
    · have hmem2 : m ∈ pawnMovesCore s idx ((idx : Int) / 8)
          ((idx : Int) % 8) s.to_move 1 1 7 := by
        simp only [pawnMovesAt, if_neg hw] at hmem
        exact hmem
      obtain ⟨hto, hrank, -⟩ :=
        pawnMovesCore_two_rows s idx s.to_move 1 1 7 m hmem2 h2 (Or.inr rfl)
      have hcb : ¬ color_of piece = 'w' := by rw [hcol]; exact hw
      rw [if_neg hcb]
      constructor <;> omega

/-- C5: for a pseudo-legal move, the resulting en-passant target is set
if and only if the move is a pawn double push, in which case it is the
square the pawn jumped over; every other move clears it.  Since the
equation determines the target from the applied move alone, a target
created by one double push is gone after any following move that is not
itself a double push — the window lasts exactly one ply. -/
theorem c5_en_passant_window (s : State) (m : Move)
    (hm : m ∈ generate_pseudo_legal_moves s) :
    (apply_move s m).map State.en_passant =
      (apply_move s m).map fun _ =>
        if isDoublePush s m then some (passed_over_square m) else none := by
  rcases happ : apply_move s m with _ | t
  · rfl
  · simp only [Option.map_some']
    obtain ⟨p, tg, hpg, -, -, -, hep⟩ := apply_move_fields s m t happ
    rw [hep]
    have hiff := isDoublePush_iff_two_rows s m p hm hpg
    by_cases hd : isDoublePush s m = true
    · rw [if_pos hd]
      obtain ⟨hpawn, h2⟩ := hiff.mp hd
      rw [if_pos ⟨hpawn, h2⟩]
      simp only [Option.some_inj]
      simp only [isDoublePush, hpg, decide_eq_true_eq] at hd
      obtain ⟨-, hcond⟩ := hd
      unfold passed_over_square
      split at hcond
      · obtain ⟨hto, hr⟩ := hcond
        have hto8 : m.to_sq / 8 = 4 := by omega
        rw [hr, hto8]
        omega
      · obtain ⟨hto, hr⟩ := hcond
        have hto8 : m.to_sq / 8 = 3 := by omega
        rw [hr, hto8]
        omega
    · rw [if_neg hd, if_neg (fun hcode => hd (hiff.mpr hcode))]

/-- C5, witness: the double push a2a4 from a pawn endgame position. -/
theorem c5_witness :
    (⟨48, 32, none⟩ : Move) ∈ generate_pseudo_legal_moves pawnStart ∧
    (apply_move pawnStart ⟨48, 32, none⟩).map State.en_passant =
      (apply_move pawnStart ⟨48, 32, none⟩).map fun _ =>
        if isDoublePush pawnStart ⟨48, 32, none⟩ then
          some (passed_over_square ⟨48, 32, none⟩)
        else none :=
  ⟨by decide, c5_en_passant_window pawnStart ⟨48, 32, none⟩ (by decide)⟩
